import Mathlib

/-!
Shallow embedding of the duplicate-detection and upload-reconciliation core of
OSM-GPX-Uploader (src/OSM-GPX-Uploader.py): timestamp extraction from GPX XML,
identity formatting, remote inventory scanning, upload response handling, and
the per-file reconciliation loop of `main`.
-/

namespace Osm

/-- The character the source writes as a literal opening brace inside
ElementTree qualified tags. -/
def braceOpen : Char := Char.ofNat 123

/-- The character the source writes as a literal closing brace inside
ElementTree qualified tags. -/
def braceClose : Char := Char.ofNat 125

/-- ElementTree qualified tag: brace, namespace URI, brace, local name. -/
def qtag (uri localName : String) : String :=
  String.mk (braceOpen :: uri.data ++ braceClose :: localName.data)

/-- Value of a decimal digit character. -/
def dval (c : Char) : Nat := c.toNat - 48

/-- Decimal digit character for a value below ten. -/
def digitChar (n : Nat) : Char := Char.ofNat (48 + n)

/-- Two-digit zero-padded field, as produced by strftime `%m`, `%d`, `%H`,
`%M` (every such field of the source is bounded by 99 on the datetime
domain, so two div/mod digits are exact). -/
def pad2 (n : Nat) : List Char := [digitChar (n / 10 % 10), digitChar (n % 10)]

/-- Four-digit zero-padded field, as produced by strftime `%Y` (datetime years
are bounded by 9999, so four div/mod digits are exact). -/
def pad4 (n : Nat) : List Char :=
  [digitChar (n / 1000 % 10), digitChar (n / 100 % 10),
   digitChar (n / 10 % 10), digitChar (n % 10)]

/-- Point-in-time value: the fields of a Python `datetime`, with the optional
UTC offset in minutes of an aware datetime. -/
structure DateTime where
  year : Nat
  month : Nat
  day : Nat
  hour : Nat
  minute : Nat
  second : Nat
  microsecond : Nat
  utcOffsetMinutes : Option Int
deriving DecidableEq

/-- The domain of Python `datetime` values: what `datetime.__new__` accepts. -/
def ValidDT (dt : DateTime) : Prop :=
  1 ≤ dt.year ∧ dt.year ≤ 9999 ∧ 1 ≤ dt.month ∧ dt.month ≤ 12 ∧
  1 ≤ dt.day ∧ dt.day ≤ 31 ∧ dt.hour ≤ 23 ∧ dt.minute ≤ 59 ∧ dt.second ≤ 59

instance (dt : DateTime) : Decidable (ValidDT dt) := by
  unfold ValidDT; infer_instance

/-- Identity Formatter `format_trace_name` (src/OSM-GPX-Uploader.py:282-284):
`dt.strftime("%Y%m%d - %H:%M")`. -/
def format_trace_name (dt : DateTime) : String :=
  String.mk (pad4 dt.year ++ pad2 dt.month ++ pad2 dt.day ++
    [' ', '-', ' '] ++ pad2 dt.hour ++ [':'] ++ pad2 dt.minute)

/-- Character list matching the regular expression of
`get_existing_traces` (src/OSM-GPX-Uploader.py:310): eight digits, space,
dash, space, two digits, colon, two digits.  `\d` is modelled as an ASCII
decimal digit, the only digits the program ever produces or scans. -/
def isIdShapeChars (l : List Char) : Bool :=
  match l with
  | [a, b, c, d, e, f, g, h, s1, da, s2, h1, h2, co, m1, m2] =>
    a.isDigit && b.isDigit && c.isDigit && d.isDigit &&
    e.isDigit && f.isDigit && g.isDigit && h.isDigit &&
    s1 = ' ' && da = '-' && s2 = ' ' &&
    h1.isDigit && h2.isDigit && co = ':' && m1.isDigit && m2.isDigit
  | _ => false

/-- Leftmost match of the identity pattern, as `re.search` finds it: try every
start position from the left, and at each one try the 16-character window. -/
def searchIdChars : List Char → Option (List Char)
  | [] => none
  | c :: rest =>
    if isIdShapeChars ((c :: rest).take 16) then some ((c :: rest).take 16)
    else searchIdChars rest

/-- Identity scan: `re.search(r'\d{8} - \d{2}:\d{2}', desc)` followed by `match.group()`
(src/OSM-GPX-Uploader.py:310-312). -/
def re_search_id (s : String) : Option String :=
  (searchIdChars s.data).map String.mk

/-! ### String comparison

Python compares strings lexicographically by code point; this executable
comparator mirrors that order (Lean's library order on `String` is
propositionally the same but does not reduce in the kernel). -/

/-- Code-point lexicographic order on character lists. -/
def charsLe : List Char → List Char → Bool
  | [], _ => true
  | _ :: _, [] => false
  | a :: as, b :: bs => if a = b then charsLe as bs else decide (a < b)

/-- Python string comparison `a <= b`. -/
def strLe (a b : String) : Bool := charsLe a.data b.data

/-- Python string comparison `a < b`. -/
def strLt (a b : String) : Bool := strLe a b && !(decide (a = b))

/-- Relation form of `strLe`, for use with `List.insertionSort`. -/
def strLeR (a b : String) : Prop := strLe a b = true

instance : DecidableRel strLeR := fun a b =>
  inferInstanceAs (Decidable (strLe a b = true))

/-! ### ISO-8601 timestamp parsing

Models Python's `datetime.fromisoformat` on the grammar the source feeds it
(src/OSM-GPX-Uploader.py:274): `YYYY-MM-DD`, optionally followed by a `T` or
space separator and `HH:MM`, `HH:MM:SS`, an optional fractional-second part
of one to six digits, and an optional `+HH:MM`/`-HH:MM` UTC offset; field
ranges are validated as `datetime` does. -/

/-- Days in a month, with the Gregorian leap-year rule. -/
def daysInMonth (y m : Nat) : Nat :=
  if m = 2 then (if y % 4 = 0 ∧ (y % 100 ≠ 0 ∨ y % 400 = 0) then 29 else 28)
  else if m = 4 ∨ m = 6 ∨ m = 9 ∨ m = 11 then 30 else 31

/-- Optional UTC offset at the end of an ISO-8601 string. -/
def parseOffsetPart : List Char → Option (Option Int)
  | [] => some none
  | c :: rest =>
    if c = '+' ∨ c = '-' then
      match rest with
      | [h1, h2, co, m1, m2] =>
        if h1.isDigit ∧ h2.isDigit ∧ co = ':' ∧ m1.isDigit ∧ m2.isDigit then
          let oh := dval h1 * 10 + dval h2
          let om := dval m1 * 10 + dval m2
          if oh ≤ 23 ∧ om ≤ 59 then
            some (some (if c = '-' then -((oh * 60 + om : Nat) : Int)
                        else ((oh * 60 + om : Nat) : Int)))
          else none
        else none
      | _ => none
    else none

/-- Optional fractional-second part, scaled to microseconds. -/
def parseFracPart : List Char → Option (Nat × List Char)
  | [] => some (0, [])
  | c :: rest =>
    if c = '.' then
      let ds := rest.takeWhile Char.isDigit
      let rest2 := rest.dropWhile Char.isDigit
      if ds.length = 0 ∨ 6 < ds.length then none
      else some ((ds.foldl (fun a d => a * 10 + dval d) 0) * 10 ^ (6 - ds.length), rest2)
    else some (0, c :: rest)

/-- Optional `:SS` part with fraction, then the offset. -/
def parseSecondPart : List Char → Option (Nat × Nat × Option Int)
  | [] => some (0, 0, none)
  | c :: rest =>
    if c = ':' then
      match rest with
      | s1 :: s2 :: rest2 =>
        if s1.isDigit ∧ s2.isDigit then
          match parseFracPart rest2 with
          | some (micro, rest3) =>
            match parseOffsetPart rest3 with
            | some off => some (dval s1 * 10 + dval s2, micro, off)
            | none => none
          | none => none
        else none
      | _ => none
    else
      match parseOffsetPart (c :: rest) with
      | some off => some (0, 0, off)
      | none => none

/-- Time part `HH:MM` with the optional tail parts. -/
def parseTimePart (cs : List Char) : Option (Nat × Nat × Nat × Nat × Option Int) :=
  match cs with
  | h1 :: h2 :: co :: m1 :: m2 :: rest =>
    if h1.isDigit ∧ h2.isDigit ∧ co = ':' ∧ m1.isDigit ∧ m2.isDigit then
      match parseSecondPart rest with
      | some (s, micro, off) =>
        some (dval h1 * 10 + dval h2, dval m1 * 10 + dval m2, s, micro, off)
      | none => none
    else none
  | _ => none

/-- Model of `datetime.fromisoformat`, returning `none` where Python raises
`ValueError`. -/
def fromisoformat (s : String) : Option DateTime :=
  match s.data with
  | y1 :: y2 :: y3 :: y4 :: h1 :: mo1 :: mo2 :: h2 :: da1 :: da2 :: rest =>
    if y1.isDigit ∧ y2.isDigit ∧ y3.isDigit ∧ y4.isDigit ∧ h1 = '-' ∧
       mo1.isDigit ∧ mo2.isDigit ∧ h2 = '-' ∧ da1.isDigit ∧ da2.isDigit then
      let y := dval y1 * 1000 + dval y2 * 100 + dval y3 * 10 + dval y4
      let mo := dval mo1 * 10 + dval mo2
      let da := dval da1 * 10 + dval da2
      let tm : Option (Nat × Nat × Nat × Nat × Option Int) :=
        match rest with
        | [] => some (0, 0, 0, 0, none)
        | sep :: trest => if sep = 'T' ∨ sep = ' ' then parseTimePart trest else none
      match tm with
      | some (h, mi, sec, micro, off) =>
        if 1 ≤ y ∧ 1 ≤ mo ∧ mo ≤ 12 ∧ 1 ≤ da ∧ da ≤ daysInMonth y mo ∧
           h ≤ 23 ∧ mi ≤ 59 ∧ sec ≤ 59 then
          some ⟨y, mo, da, h, mi, sec, micro, off⟩
        else none
      | none => none
    else none
  | _ => none

/-- Character-level rewrite `timestamps[0].replace('Z', '+00:00')`
(src/OSM-GPX-Uploader.py:274); Python `str.replace` rewrites every
occurrence. -/
def replaceZchars : List Char → List Char
  | [] => []
  | c :: rest =>
    if c = 'Z' then '+' :: '0' :: '0' :: ':' :: '0' :: '0' :: replaceZchars rest
    else c :: replaceZchars rest

/-- String form of `s.replace('Z', '+00:00')`. -/
def replaceZ (s : String) : String := String.mk (replaceZchars s.data)

/-! ### XML model and the timestamp extractor -/

/-- An ElementTree element: qualified tag (`braceOpen ++ uri ++ braceClose ++
local` when a namespace is declared), optional text, children in document
order. -/
inductive XmlElem where
  | mk (tag : String) (text : Option String) (children : List XmlElem)

/-- Qualified tag of an element. -/
def XmlElem.tag : XmlElem → String
  | .mk t _ _ => t

/-- Text content of an element, `none` when absent. -/
def XmlElem.text : XmlElem → Option String
  | .mk _ t _ => t

/-- Children of an element in document order. -/
def XmlElem.children : XmlElem → List XmlElem
  | .mk _ _ c => c

mutual
/-- All strict descendants of an element in document order, as the `.//`
steps of `findall` visit them. -/
def descendants : XmlElem → List XmlElem
  | .mk _ _ cs => descList cs
/-- Descendant traversal of a sibling list. -/
def descList : List XmlElem → List XmlElem
  | [] => []
  | c :: rest => c :: descendants c ++ descList rest
end

/-- The fixed well-known GPX namespace (src/OSM-GPX-Uploader.py:245). -/
def gpxNs : String := "http://www.topografix.com/GPX/1/1"

/-- Suffix test `s.endswith(post)` on code points. -/
def endsWithB (s post : String) : Bool :=
  post.data.reverse.isPrefixOf s.data.reverse

/-- Namespace split `root.tag.split(chr(125))[0].strip(chr(123))`
(src/OSM-GPX-Uploader.py:249): the text before the first closing brace, with
opening braces stripped from both ends. -/
def tagNsUri (tag : String) : String :=
  String.mk
    ((((tag.data.takeWhile (· ≠ braceClose)).dropWhile
        (· = braceOpen)).reverse.dropWhile (· = braceOpen)).reverse)

/-- Namespace selection of `extract_gpx_timestamp`
(src/OSM-GPX-Uploader.py:245-250): the well-known namespace, unless the root
tag does not end in `gpx` and contains a closing brace, in which case the
namespace is taken from the root's qualified name. -/
def nsOf (root : XmlElem) : String :=
  if endsWithB root.tag "gpx" then gpxNs
  else if braceClose ∈ root.tag.data then tagNsUri root.tag
  else gpxNs

/-- Text of a time element when present and non-empty, the `if
time_elem.text` guard of the source. -/
def textNonempty (e : XmlElem) : Option String :=
  match e.text with
  | some s => if s = "" then none else some s
  | none => none

/-- Model of `root.findall('.//gpx:' ++ parent ++ '/gpx:time', ns)`: the `time`
children of every `parent` descendant, in document order. -/
def findTimeElems (ns : String) (root : XmlElem) (parent : String) : List XmlElem :=
  ((descendants root).filter (fun d => d.tag = qtag ns parent)).flatMap
    (fun d => d.children.filter (fun c => c.tag = qtag ns "time"))

/-- The collected timestamp texts of `extract_gpx_timestamp`
(src/OSM-GPX-Uploader.py:252-267): track-point times, waypoint times, then
the first metadata time element when its text is non-empty. -/
def gpxTimestamps (root : XmlElem) : List String :=
  (findTimeElems (nsOf root) root "trkpt").filterMap textNonempty ++
  (findTimeElems (nsOf root) root "wpt").filterMap textNonempty ++
  (match (findTimeElems (nsOf root) root "metadata").head? with
   | some e => (textNonempty e).toList
   | none => [])

/-- Timestamp Extractor `extract_gpx_timestamp` (src/OSM-GPX-Uploader.py:238-279).  The argument
is `none` when `ET.parse` raises; the catch-all handler then returns `None`.
With a parsed document, the collected timestamps are sorted, and the smallest
is parsed with `Z` rewritten to `+00:00`; an empty collection, or a parse
error (also caught by the same handler), gives `None`. -/
def extract_gpx_timestamp (doc : Option XmlElem) : Option DateTime :=
  match doc with
  | none => none
  | some root =>
    match List.insertionSort strLeR (gpxTimestamps root) with
    | [] => none
    | m :: _ => fromisoformat (replaceZ m)

/-! ### Remote inventory reader -/

/-- One record of the remote trace list; only the optional `description`
field is ever read (src/OSM-GPX-Uploader.py:305-312). -/
structure TraceRecord where
  description : Option String
deriving DecidableEq

/-- Parsed JSON body of the list response: the record list may sit under
`traces` or under `gpx_files` (src/OSM-GPX-Uploader.py:301). -/
structure ApiBody where
  traces : Option (List TraceRecord)
  gpx_files : Option (List TraceRecord)
deriving DecidableEq

/-- An HTTP response: status code and parsed body, `none` when `.json()`
raises. -/
structure HttpResponse where
  status : Nat
  body : Option ApiBody
deriving DecidableEq

/-- Record-list lookup `data.get('traces', data.get('gpx_files', []))`
(src/OSM-GPX-Uploader.py:301). -/
def recordList (b : ApiBody) : List TraceRecord :=
  b.traces.getD (b.gpx_files.getD [])

/-- The record loop of `get_existing_traces` (src/OSM-GPX-Uploader.py:305-312):
for each record whose description is present and non-empty, add the first
identity-shaped substring, when one exists, to the set. -/
def collectTraceNames : List TraceRecord → Finset String
  | [] => ∅
  | r :: rest =>
    match r.description with
    | some d =>
      if d = "" then collectTraceNames rest
      else
        match re_search_id d with
        | some m => insert m (collectTraceNames rest)
        | none => collectTraceNames rest
    | none => collectTraceNames rest

/-- Remote Inventory Reader `get_existing_traces` (src/OSM-GPX-Uploader.py:287-320).  The argument is
`none` when `requests.get` raises (network failure); a non-200 status or a
body that fails to parse also yields the empty set. -/
def get_existing_traces (resp : Option HttpResponse) : Finset String :=
  match resp with
  | none => ∅
  | some r =>
    if r.status ≠ 200 then ∅
    else
      match r.body with
      | none => ∅
      | some data => collectTraceNames (recordList data)

/-! ### Uploader -/

/-- Outcome of the POST in `upload_gpx`: a response with status and text
body, or a locally raised exception. -/
inductive UploadOutcome where
  | resp (status : Nat) (text : String)
  | exc
deriving DecidableEq

/-- Observable result of `upload_gpx`: the returned boolean, and the remote
identifier reported on success (`response.text.strip()`). -/
structure UploadResult where
  ok : Bool
  trace_id : Option String
deriving DecidableEq

/-- Response handling of `upload_gpx` (src/OSM-GPX-Uploader.py:345-359):
status 200 or 201 reports success with the stripped response text as the
remote identifier; any other status, and any locally raised exception,
reports failure. -/
def upload_gpx (o : UploadOutcome) : UploadResult :=
  match o with
  | .resp status text =>
    if status = 200 ∨ status = 201 then ⟨true, some text.trim⟩
    else ⟨false, none⟩
  | .exc => ⟨false, none⟩

/-- The description sent by `upload_gpx` (src/OSM-GPX-Uploader.py:329):
`f"{trace_name} - {config['description']}"`. -/
def upload_description (trace_name cfgDescription : String) : String :=
  trace_name ++ " - " ++ cfgDescription

/-! ### Reconciliation loop of `main` -/

/-- A discovered trace file with everything the loop of `main` consumes: the
file name, the parsed XML document (`none` when `ET.parse` raises), the
datetime of the file's modification time, and the outcome of its upload
request, were one issued. -/
structure TraceFile where
  name : String
  doc : Option XmlElem
  mtime : DateTime
  outcome : UploadOutcome

/-- The identity derived for a file (src/OSM-GPX-Uploader.py:406-413):
extracted timestamp, falling back to the modification time. -/
def traceName (f : TraceFile) : String :=
  format_trace_name ((extract_gpx_timestamp f.doc).getD f.mtime)

/-- Whether the upload of this file would succeed. -/
def uploadOk (f : TraceFile) : Bool := (upload_gpx f.outcome).ok

/-- Mutable state of the loop of `main`: the three tallies and the
seen-identity set. -/
structure RunState where
  uploaded : Nat
  skipped : Nat
  errors : Nat
  existing : Finset String

/-- Terminal state of one file. -/
inductive FileStatus where
  | uploaded
  | skipped
  | errored
deriving DecidableEq

/-- One iteration of the loop of `main` (src/OSM-GPX-Uploader.py:402-427):
skip when the identity is already seen; otherwise upload, and on success
count it and add the identity, on failure count an error and leave the set
unchanged. -/
def processFile (st : RunState) (f : TraceFile) : RunState × FileStatus :=
  let tn := traceName f
  if tn ∈ st.existing then
    (⟨st.uploaded, st.skipped + 1, st.errors, st.existing⟩, .skipped)
  else if uploadOk f then
    (⟨st.uploaded + 1, st.skipped, st.errors, insert tn st.existing⟩, .uploaded)
  else
    (⟨st.uploaded, st.skipped, st.errors + 1, st.existing⟩, .errored)

/-- The loop of `main` over a file list, recording each file's terminal
state in order. -/
def runFiles (st : RunState) : List TraceFile → RunState × List (String × FileStatus)
  | [] => (st, [])
  | f :: rest =>
    ((runFiles (processFile st f).1 rest).1,
     (f.name, (processFile st f).2) :: (runFiles (processFile st f).1 rest).2)

/-- File order: `strLe` on file names, the order of `sorted(gpx_files)`
(src/OSM-GPX-Uploader.py:402); paths in one directory compare by name. -/
def nameLeR (a b : TraceFile) : Prop := strLe a.name b.name = true

instance : DecidableRel nameLeR := fun a b =>
  inferInstanceAs (Decidable (strLe a.name b.name = true))

/-- Name sort `sorted(gpx_files)`: a sort of the discovered files by name. -/
def sortByName (files : List TraceFile) : List TraceFile :=
  List.insertionSort nameLeR files

/-- The reconciliation run of `main` (src/OSM-GPX-Uploader.py:397-427):
tallies start at zero, the seen set starts as the remote inventory, and the
files are processed in name order. -/
def main_run (files : List TraceFile) (inventory : Finset String) :
    RunState × List (String × FileStatus) :=
  runFiles ⟨0, 0, 0, inventory⟩ (sortByName files)

/-! ### Document builders used to state namespace claims -/

/-- A `time` element with the given namespace and text. -/
def timeNode (uri t : String) : XmlElem := .mk (qtag uri "time") (some t) []

/-- A track point holding one `time` child. -/
def trkptNode (uri t : String) : XmlElem :=
  .mk (qtag uri "trkpt") none [timeNode uri t]

/-- A trace document: a namespaced root holding one track point per
timestamp, the shape consumed by the extractor's `trkpt` search. -/
def mkTrkDoc (uri rootLocal : String) (times : List String) : XmlElem :=
  .mk (qtag uri rootLocal) none (times.map (trkptNode uri))

/-! ### Helper lemmas -/

/-- Digit characters below ten are decimal digits. -/
theorem digitChar_isDigit : ∀ m, m < 10 → (digitChar m).isDigit = true := by decide

/-- Every character `pad2`/`pad4` emits is a decimal digit. -/
theorem digitChar_mod_isDigit (n : Nat) : (digitChar (n % 10)).isDigit = true :=
  digitChar_isDigit _ (Nat.mod_lt _ (by decide))

/-- An identity string always spells sixteen characters. -/
theorem format_data_len (dt : DateTime) : (format_trace_name dt).data.length = 16 := by
  simp [format_trace_name, pad4, pad2]

/-- An identity string always matches the scanned pattern. -/
theorem format_shape (dt : DateTime) : isIdShapeChars (format_trace_name dt).data = true := by
  simp [format_trace_name, pad4, pad2, isIdShapeChars, digitChar_mod_isDigit]

/-- Reflexivity of `charsLe`. -/
theorem charsLe_refl (l : List Char) : charsLe l l = true := by
  induction l with
  | nil => rfl
  | cons c r ih => simp [charsLe, ih]

/-- Totality of `charsLe`. -/
theorem charsLe_total (a b : List Char) : charsLe a b = true ∨ charsLe b a = true := by
  induction a generalizing b with
  | nil => left; rfl
  | cons x as ih =>
    cases b with
    | nil => right; rfl
    | cons y bs =>
      by_cases hxy : x = y
      · subst hxy
        rcases ih bs with h | h
        · left; simp [charsLe, h]
        · right; simp [charsLe, h]
      · rcases lt_or_gt_of_ne hxy with h | h
        · left; simp [charsLe, hxy, h]
        · right
          have hyx : y ≠ x := Ne.symm hxy
          simp [charsLe, hyx, h]

/-- Transitivity of `charsLe`. -/
theorem charsLe_trans : ∀ {a b c : List Char},
    charsLe a b = true → charsLe b c = true → charsLe a c = true := by
  intro a
  induction a with
  | nil => intro b c _ _; rfl
  | cons x as ih =>
    intro b c hab hbc
    cases b with
    | nil => simp [charsLe] at hab
    | cons y bs =>
      cases c with
      | nil => simp [charsLe] at hbc
      | cons z cs =>
        by_cases hxy : x = y
        · subst hxy
          by_cases hyz : x = z
          · subst hyz
            simp only [charsLe, if_pos rfl] at hab hbc ⊢
            exact ih hab hbc
          · simp only [charsLe, if_pos rfl] at hab
            simp only [charsLe, if_neg hyz] at hbc ⊢
            exact hbc
        · by_cases hyz : y = z
          · subst hyz
            simp only [charsLe, if_neg hxy] at hab ⊢
            exact hab
          · simp only [charsLe, if_neg hxy] at hab
            simp only [charsLe, if_neg hyz] at hbc
            have hx : x < y := of_decide_eq_true hab
            have hy : y < z := of_decide_eq_true hbc
            have hxz : x < z := lt_trans hx hy
            simp [charsLe, ne_of_lt hxz, hxz]

instance : IsTotal String strLeR := ⟨fun a b => charsLe_total a.data b.data⟩

instance : IsTrans String strLeR := ⟨fun _ _ _ hab hbc => charsLe_trans hab hbc⟩

instance : IsTotal TraceFile nameLeR := ⟨fun a b => charsLe_total a.name.data b.name.data⟩

instance : IsTrans TraceFile nameLeR := ⟨fun _ _ _ hab hbc => charsLe_trans hab hbc⟩

/-- Whatever `searchIdChars` returns matches the pattern. -/
theorem searchIdChars_shape : ∀ {cs m : List Char},
    searchIdChars cs = some m → isIdShapeChars m = true := by
  intro cs
  induction cs with
  | nil => intro m h; simp [searchIdChars] at h
  | cons c rest ih =>
    intro m h
    by_cases hc : isIdShapeChars ((c :: rest).take 16) = true
    · simp only [searchIdChars, if_pos hc, Option.some.injEq] at h
      rw [← h]; exact hc
    · simp only [searchIdChars, if_neg hc] at h
      exact ih h

/-- Leftmost property: `searchIdChars` returns the match at the least starting position: the
match is the 16-character window at some index, and every earlier window
fails the pattern. -/
theorem searchId_leftmost : ∀ {cs m : List Char}, searchIdChars cs = some m →
    ∃ i, m = (cs.drop i).take 16 ∧ isIdShapeChars m = true ∧
      ∀ j, j < i → isIdShapeChars ((cs.drop j).take 16) = false := by
  intro cs
  induction cs with
  | nil => intro m h; simp [searchIdChars] at h
  | cons c rest ih =>
    intro m h
    by_cases hc : isIdShapeChars ((c :: rest).take 16) = true
    · simp only [searchIdChars, if_pos hc, Option.some.injEq] at h
      exact ⟨0, by simpa using h.symm, by rw [← h]; exact hc, fun j hj => absurd hj (by omega)⟩
    · simp only [searchIdChars, if_neg hc] at h
      obtain ⟨i, h1, h2, h3⟩ := ih h
      refine ⟨i + 1, by simpa using h1, h2, ?_⟩
      intro j hj
      cases j with
      | zero => simpa using eq_false_of_ne_true hc
      | succ k => simpa using h3 k (by omega)

/-- A 16-character pattern match at the very front is what the search
returns. -/
theorem searchId_append_head {l r : List Char} (hlen : l.length = 16)
    (hshape : isIdShapeChars l = true) : searchIdChars (l ++ r) = some l := by
  cases l with
  | nil => simp at hlen
  | cons c l' =>
    have htake : (c :: (l' ++ r)).take 16 = c :: l' := by
      have hrw : c :: (l' ++ r) = (c :: l') ++ r := by simp
      rw [hrw, ← hlen, List.take_left]
    rw [List.cons_append]
    simp only [searchIdChars, htake, hshape, if_pos]

/-! ### Claim theorems: formatter, description round-trip, uploader, scanner -/

/-- C5 counterexample: the claim asserts every identity string has length 17,
but the identity of the valid point-in-time 2023-11-22 14:04 has length 16:
`YYYYMMDD - HH:MM` spells eight digits, a three-character separator and five
time characters. -/
theorem c5_counterexample :
    ValidDT ⟨2023, 11, 22, 14, 4, 0, 0, none⟩ ∧
    (format_trace_name ⟨2023, 11, 22, 14, 4, 0, 0, none⟩).length = 16 ∧
    ¬ (format_trace_name ⟨2023, 11, 22, 14, 4, 0, 0, none⟩).length = 17 := by
  decide

/-- C5 (amended): for every valid point-in-time value, the Identity Formatter
produces a string of length 16 matching the fixed shape `YYYYMMDD - HH:MM` —
four-digit zero-padded year, two-digit month, day, hour and minute, the
literal space-dash-space separator, 24-hour clock, no seconds, no timezone
indicator. -/
theorem c5_identity_shape (dt : DateTime) (_hv : ValidDT dt) :
    (format_trace_name dt).length = 16 ∧
    isIdShapeChars (format_trace_name dt).data = true := by
  exact ⟨format_data_len dt, format_shape dt⟩

/-- C5 witness: the amended claim at the concrete input 2023-11-22 14:04. -/
theorem c5_witness :
    (format_trace_name ⟨2023, 11, 22, 14, 4, 0, 0, none⟩).length = 16 ∧
    isIdShapeChars (format_trace_name ⟨2023, 11, 22, 14, 4, 0, 0, none⟩).data = true :=
  c5_identity_shape ⟨2023, 11, 22, 14, 4, 0, 0, none⟩ (by decide)

/-- C9 counterexample: the claim asserts failure exactly for non-2xx
statuses, but the uploader reports failure on status 202, a 2xx success
status (the source accepts only 200 and 201). -/
theorem c9_counterexample :
    (upload_gpx (.resp 202 "accepted")).ok = false ∧ 200 ≤ 202 ∧ 202 < 300 := by
  decide

/-- C9 (amended): the Uploader reports success, together with the stripped
response text as the remote identifier, exactly when the remote write
endpoint returns status 200 or 201; it reports failure for every other
status and for every locally raised exception. -/
theorem c9_upload_success_iff (status : Nat) (text : String) :
    ((upload_gpx (.resp status text)).ok = true ↔ (status = 200 ∨ status = 201)) ∧
    (upload_gpx (.resp status text)).trace_id =
      (if status = 200 ∨ status = 201 then some text.trim else none) ∧
    upload_gpx .exc = ⟨false, none⟩ := by
  by_cases h : status = 200 ∨ status = 201 <;> simp [upload_gpx, h]

/-- C7: for every identity produced by the Identity Formatter and every
configured description suffix, the description the Uploader sends starts
with the identity, and the Remote Inventory Reader's pattern search applied
to that description recovers exactly the identity. -/
theorem c7_description_roundtrip (dt : DateTime) (cfgDescription : String) :
    (∃ tail, upload_description (format_trace_name dt) cfgDescription =
      format_trace_name dt ++ tail) ∧
    re_search_id (upload_description (format_trace_name dt) cfgDescription) =
      some (format_trace_name dt) := by
  constructor
  · exact ⟨" - " ++ cfgDescription, by simp [upload_description, String.append_assoc]⟩
  · unfold re_search_id upload_description
    have hdata : (format_trace_name dt ++ " - " ++ cfgDescription).data =
        (format_trace_name dt).data ++ (" - " ++ cfgDescription).data := by
      simp
    rw [hdata, searchId_append_head (format_data_len dt) (format_shape dt)]
    rfl

/-- C10: the inventory reader contributes at most one identity per record;
the search finds the leftmost identity-shaped window, every earlier window
failing the pattern; and because matching is unanchored, the description
`123456789 - 12:34` contributes the identity `23456789 - 12:34`. -/
theorem c10_leftmost_match :
    (∀ r : TraceRecord, (collectTraceNames [r]).card ≤ 1) ∧
    (∀ d m : String, re_search_id d = some m →
      ∃ i, m.data = (d.data.drop i).take 16 ∧ isIdShapeChars m.data = true ∧
        ∀ j, j < i → isIdShapeChars ((d.data.drop j).take 16) = false) ∧
    re_search_id "123456789 - 12:34" = some "23456789 - 12:34" := by
  refine ⟨?_, ?_, by decide⟩
  · intro r
    cases r with
    | mk desc =>
      cases desc with
      | none => simp [collectTraceNames]
      | some d =>
        by_cases hd : d = ""
        · simp [collectTraceNames, hd]
        · cases hm : re_search_id d with
          | none => simp [collectTraceNames, hd, hm]
          | some m => simp [collectTraceNames, hd, hm]
  · intro d m h
    unfold re_search_id at h
    cases hs : searchIdChars d.data with
    | none => rw [hs] at h; simp at h
    | some mc =>
      rw [hs] at h
      injection h with h
      obtain ⟨i, h1, h2, h3⟩ := searchId_leftmost hs
      refine ⟨i, ?_, ?_, h3⟩
      · rw [← h]; exact h1
      · rw [← h]; exact h2

/-- C10 witness: the leftmost-match property applied at the concrete
unanchored description. -/
theorem c10_witness :
    ∃ i, ("23456789 - 12:34" : String).data =
        (("123456789 - 12:34" : String).data.drop i).take 16 ∧
      isIdShapeChars ("23456789 - 12:34" : String).data = true ∧
      ∀ j, j < i →
        isIdShapeChars ((("123456789 - 12:34" : String).data.drop j).take 16) = false :=
  c10_leftmost_match.2.1 "123456789 - 12:34" "23456789 - 12:34" (by decide)

/-! ### Claim theorems: remote inventory reader -/

/-- Membership in the collected trace-name set comes exactly from a record
with a present, non-empty description whose scan finds that identity. -/
theorem mem_collectTraceNames (records : List TraceRecord) (x : String) :
    x ∈ collectTraceNames records ↔
      ∃ r, r ∈ records ∧ ∃ d, r.description = some d ∧ d ≠ "" ∧
        re_search_id d = some x := by
  induction records with
  | nil => simp [collectTraceNames]
  | cons r rest ih =>
    cases hdesc : r.description with
    | none =>
      simp only [collectTraceNames, hdesc]
      rw [ih]
      constructor
      · rintro ⟨r', hr', hrest⟩
        exact ⟨r', List.mem_cons_of_mem _ hr', hrest⟩
      · rintro ⟨r', hr', d, hd, hne, hm⟩
        rcases List.mem_cons.mp hr' with rfl | hr'
        · rw [hdesc] at hd; cases hd
        · exact ⟨r', hr', d, hd, hne, hm⟩
    | some d =>
      by_cases hempty : d = ""
      · simp only [collectTraceNames, hdesc, if_pos hempty]
        rw [ih]
        constructor
        · rintro ⟨r', hr', hrest⟩
          exact ⟨r', List.mem_cons_of_mem _ hr', hrest⟩
        · rintro ⟨r', hr', d', hd, hne, hm⟩
          rcases List.mem_cons.mp hr' with rfl | hr'
          · rw [hdesc] at hd
            cases hd
            exact absurd hempty hne
          · exact ⟨r', hr', d', hd, hne, hm⟩
      · cases hm : re_search_id d with
        | none =>
          simp only [collectTraceNames, hdesc, if_neg hempty, hm]
          rw [ih]
          constructor
          · rintro ⟨r', hr', hrest⟩
            exact ⟨r', List.mem_cons_of_mem _ hr', hrest⟩
          · rintro ⟨r', hr', d', hd, hne, hmx⟩
            rcases List.mem_cons.mp hr' with rfl | hr'
            · rw [hdesc] at hd
              cases hd
              rw [hm] at hmx
              cases hmx
            · exact ⟨r', hr', d', hd, hne, hmx⟩
        | some m =>
          simp only [collectTraceNames, hdesc, if_neg hempty, hm]
          rw [Finset.mem_insert, ih]
          constructor
          · rintro (rfl | ⟨r', hr', hrest⟩)
            · exact ⟨r, List.mem_cons_self _ _, d, hdesc, hempty, hm⟩
            · exact ⟨r', List.mem_cons_of_mem _ hr', hrest⟩
          · rintro ⟨r', hr', d', hd, hne, hmx⟩
            rcases List.mem_cons.mp hr' with rfl | hr'
            · rw [hdesc] at hd
              cases hd
              rw [hm] at hmx
              cases hmx
              exact Or.inl rfl
            · exact Or.inr ⟨r', hr', d', hd, hne, hmx⟩

/-- C8: the Remote Inventory Reader returns exactly the identity-shaped
substrings matched in record descriptions, reading the record list under
`traces` or, failing that, `gpx_files`, silently skipping records without a
present, non-empty, matching description; and it returns the empty set on a
network error, on a non-success status, and on a malformed response body. -/
theorem c8_inventory_reader :
    get_existing_traces none = ∅ ∧
    (∀ r : HttpResponse, r.status ≠ 200 → get_existing_traces (some r) = ∅) ∧
    (∀ status : Nat, get_existing_traces (some ⟨status, none⟩) = ∅) ∧
    (∀ (b : ApiBody) (l : List TraceRecord), b.traces = some l → recordList b = l) ∧
    (∀ (b : ApiBody) (l : List TraceRecord), b.traces = none → b.gpx_files = some l →
      recordList b = l) ∧
    (∀ b : ApiBody, get_existing_traces (some ⟨200, some b⟩) =
      collectTraceNames (recordList b)) ∧
    (∀ (records : List TraceRecord) (x : String), x ∈ collectTraceNames records ↔
      ∃ r, r ∈ records ∧ ∃ d, r.description = some d ∧ d ≠ "" ∧
        re_search_id d = some x) ∧
    (∀ (records : List TraceRecord) (x : String), x ∈ collectTraceNames records →
      isIdShapeChars x.data = true) := by
  refine ⟨rfl, ?_, ?_, ?_, ?_, ?_, mem_collectTraceNames, ?_⟩
  · intro r h
    simp [get_existing_traces, h]
  · intro status
    by_cases h : status = 200 <;> simp [get_existing_traces, h]
  · intro b l h
    simp [recordList, h]
  · intro b l h1 h2
    simp [recordList, h1, h2]
  · intro b
    simp [get_existing_traces]
  · intro records x hx
    obtain ⟨r, _, d, _, _, hm⟩ := (mem_collectTraceNames records x).mp hx
    unfold re_search_id at hm
    cases hs : searchIdChars d.data with
    | none => rw [hs] at hm; cases hm
    | some mc =>
      rw [hs] at hm
      injection hm with hm
      rw [← hm]
      exact searchIdChars_shape hs

/-- C8 witness: a non-success status yields the empty set even with a
matching description present, and a concrete collected identity matches the
pattern. -/
theorem c8_witness :
    get_existing_traces
      (some ⟨403, some ⟨some [⟨some "20231122 - 14:04 - Test"⟩], none⟩⟩) = ∅ ∧
    isIdShapeChars ("20231122 - 14:04" : String).data = true :=
  ⟨c8_inventory_reader.2.1 ⟨403, some ⟨some [⟨some "20231122 - 14:04 - Test"⟩], none⟩⟩
      (by decide),
   c8_inventory_reader.2.2.2.2.2.2.2 [⟨some "20231122 - 14:04 - Test"⟩]
      "20231122 - 14:04" (by decide)⟩

/-! ### Claim theorems: reconciliation loop -/

/-- Each iteration of the loop grows exactly one of the three tallies. -/
theorem processFile_counts (st : RunState) (f : TraceFile) :
    (processFile st f).1.uploaded + (processFile st f).1.skipped +
      (processFile st f).1.errors = st.uploaded + st.skipped + st.errors + 1 := by
  unfold processFile
  by_cases h1 : traceName f ∈ st.existing
  · simp [h1]
    omega
  · by_cases h2 : uploadOk f = true
    · simp [h1, h2]
      omega
    · simp [h1, h2]
      omega

/-- The tallies after the loop grow by exactly the number of files. -/
theorem runFiles_counts : ∀ (l : List TraceFile) (st : RunState),
    (runFiles st l).1.uploaded + (runFiles st l).1.skipped + (runFiles st l).1.errors
      = st.uploaded + st.skipped + st.errors + l.length := by
  intro l
  induction l with
  | nil => intro st; simp [runFiles]
  | cons f rest ih =>
    intro st
    have hc := processFile_counts st f
    have hr := ih (processFile st f).1
    simp only [runFiles, List.length_cons]
    omega

/-- The loop reports one terminal status per file, in processing order. -/
theorem runFiles_names : ∀ (l : List TraceFile) (st : RunState),
    (runFiles st l).2.map Prod.fst = l.map TraceFile.name := by
  intro l
  induction l with
  | nil => intro st; rfl
  | cons f rest ih =>
    intro st
    simp only [runFiles, List.map_cons]
    rw [ih]

/-- C1: for every run reaching reconciliation — any file list, any initial
inventory, any per-file extractor results and uploader outcomes — the three
reported counts sum to the number of trace files found. -/
theorem c1_counts_sum (files : List TraceFile) (inventory : Finset String) :
    (main_run files inventory).1.uploaded + (main_run files inventory).1.skipped +
      (main_run files inventory).1.errors = files.length := by
  unfold main_run
  rw [runFiles_counts]
  simp [sortByName, (List.perm_insertionSort nameLeR files).length_eq]

/-- C2: a file whose identity is new and whose upload fails is tallied as an
error and leaves the seen-identity set unchanged; a run over a single such
file reports `(uploaded, skipped, errored) = (0, 0, 1)` and does not add the
identity. -/
theorem c2_failed_upload (st : RunState) (f : TraceFile) (inventory : Finset String)
    (h1 : traceName f ∉ st.existing) (h2 : uploadOk f = false)
    (h3 : traceName f ∉ inventory) :
    processFile st f = (⟨st.uploaded, st.skipped, st.errors + 1, st.existing⟩, .errored) ∧
    main_run [f] inventory = (⟨0, 0, 1, inventory⟩, [(f.name, .errored)]) := by
  have hpf : ∀ st' : RunState, traceName f ∉ st'.existing →
      processFile st' f =
        (⟨st'.uploaded, st'.skipped, st'.errors + 1, st'.existing⟩, .errored) := by
    intro st' h
    simp [processFile, h, h2]
  refine ⟨hpf st h1, ?_⟩
  have hsort : sortByName [f] = [f] := rfl
  unfold main_run
  rw [hsort]
  simp only [runFiles, hpf ⟨0, 0, 0, inventory⟩ h3]

/-- C2 witness: one file with a fresh identity whose upload returns status
500 yields `(0, 0, 1)` against an empty inventory, leaving the set empty. -/
theorem c2_witness :
    main_run [⟨"a.gpx", none, ⟨2023, 11, 22, 14, 4, 0, 0, none⟩, .resp 500 "err"⟩] ∅ =
      (⟨0, 0, 1, ∅⟩, [("a.gpx", .errored)]) :=
  (c2_failed_upload ⟨0, 0, 0, ∅⟩
    ⟨"a.gpx", none, ⟨2023, 11, 22, 14, 4, 0, 0, none⟩, .resp 500 "err"⟩ ∅
    (by decide) (by decide) (by decide)).2

/-- C3: the loop reconciles files in name order — the reported statuses
follow the sorted file names for every input — and when exactly two files
collide on a fresh identity and the first upload succeeds, the file sorting
first by name is uploaded and the later one is skipped, with tallies
`(1, 1, 0)`; `main_run` is a function of its inputs, so re-runs repeat
this outcome. -/
theorem c3_name_order (f g : TraceFile) (l : List TraceFile) (inventory : Finset String)
    (hsort : sortByName l = [f, g])
    (_hlt : strLt f.name g.name = true)
    (hid : traceName f = traceName g)
    (hnew : traceName f ∉ inventory)
    (hup : uploadOk f = true) :
    (main_run l inventory).2 = [(f.name, .uploaded), (g.name, .skipped)] ∧
    (main_run l inventory).1.uploaded = 1 ∧
    (main_run l inventory).1.skipped = 1 ∧
    (main_run l inventory).1.errors = 0 ∧
    (∀ (l' : List TraceFile) (inv' : Finset String),
      (main_run l' inv').2.map Prod.fst = (sortByName l').map TraceFile.name) := by
  have horder : ∀ (l' : List TraceFile) (inv' : Finset String),
      (main_run l' inv').2.map Prod.fst = (sortByName l').map TraceFile.name :=
    fun l' inv' => runFiles_names (sortByName l') ⟨0, 0, 0, inv'⟩
  have hpf : processFile ⟨0, 0, 0, inventory⟩ f =
      (⟨1, 0, 0, insert (traceName f) inventory⟩, .uploaded) := by
    simp [processFile, hnew, hup]
  have hpg : processFile ⟨1, 0, 0, insert (traceName f) inventory⟩ g =
      (⟨1, 1, 0, insert (traceName f) inventory⟩, .skipped) := by
    have hmem : traceName g ∈ insert (traceName f) inventory := by
      rw [← hid]
      exact Finset.mem_insert_self _ _
    simp [processFile, hmem]
  refine ⟨?_, ?_, ?_, ?_, horder⟩ <;>
    · unfold main_run
      rw [hsort]
      simp [runFiles, hpf, hpg]

/-- C3 witness: two colliding files named `a.gpx` and `b.gpx`, presented out
of order, are reconciled in name order with `a.gpx` uploaded and `b.gpx`
skipped. -/
theorem c3_witness :
    (main_run [⟨"b.gpx", none, ⟨2023, 11, 22, 14, 4, 0, 0, none⟩, .exc⟩,
               ⟨"a.gpx", none, ⟨2023, 11, 22, 14, 4, 0, 0, none⟩, .resp 200 "7"⟩] ∅).2 =
      [("a.gpx", .uploaded), ("b.gpx", .skipped)] :=
  (c3_name_order
    ⟨"a.gpx", none, ⟨2023, 11, 22, 14, 4, 0, 0, none⟩, .resp 200 "7"⟩
    ⟨"b.gpx", none, ⟨2023, 11, 22, 14, 4, 0, 0, none⟩, .exc⟩
    [⟨"b.gpx", none, ⟨2023, 11, 22, 14, 4, 0, 0, none⟩, .exc⟩,
     ⟨"a.gpx", none, ⟨2023, 11, 22, 14, 4, 0, 0, none⟩, .resp 200 "7"⟩] ∅
    rfl (by decide) rfl (by decide) (by decide)).1

/-! ### Claim theorems: timestamp extractor -/

/-- Rewriting every `Z` in a string whose only `Z` is the trailing one
appends the zero UTC offset. -/
theorem replaceZchars_no_z : ∀ (l : List Char), 'Z' ∉ l →
    replaceZchars (l ++ ['Z']) = l ++ ('+' :: '0' :: '0' :: ':' :: '0' :: '0' :: []) := by
  intro l h
  induction l with
  | nil => rfl
  | cons c rest ih =>
    have hc : c ≠ 'Z' := fun hc => h (hc ▸ List.mem_cons_self _ _)
    have hr : 'Z' ∉ rest := fun hr => h (List.mem_cons_of_mem _ hr)
    simp [replaceZchars, hc, ih hr]

/-- C4: the extractor returns `none` when XML parsing failed and when no
timestamp was collected; when timestamps were collected, it parses the head
of their sorted order — a member of the collection that is
lexicographically at most every collected string — after rewriting `Z` to
the zero UTC offset; and on a string whose trailing character is its only
`Z`, that rewrite appends exactly `+00:00`. -/
theorem c4_extractor :
    extract_gpx_timestamp none = none ∧
    (∀ root : XmlElem, gpxTimestamps root = [] →
      extract_gpx_timestamp (some root) = none) ∧
    (∀ (root : XmlElem) (m : String) (rest : List String),
      List.insertionSort strLeR (gpxTimestamps root) = m :: rest →
      extract_gpx_timestamp (some root) = fromisoformat (replaceZ m) ∧
      m ∈ gpxTimestamps root ∧
      ∀ x ∈ gpxTimestamps root, strLe m x = true) ∧
    (∀ s : String, 'Z' ∉ s.data → replaceZ (s ++ "Z") = s ++ "+00:00") := by
  have he : ∀ root : XmlElem, extract_gpx_timestamp (some root) =
      (match List.insertionSort strLeR (gpxTimestamps root) with
       | [] => none
       | m :: _ => fromisoformat (replaceZ m)) := fun _ => rfl
  refine ⟨rfl, ?_, ?_, ?_⟩
  · intro root h
    rw [he root, h]
    rfl
  · intro root m rest hs
    refine ⟨?_, ?_, ?_⟩
    · rw [he root, hs]
    · have hm : m ∈ List.insertionSort strLeR (gpxTimestamps root) := by
        rw [hs]
        exact List.mem_cons_self _ _
      exact (List.perm_insertionSort strLeR (gpxTimestamps root)).subset hm
    · intro x hx
      have hsorted : List.Sorted strLeR (List.insertionSort strLeR (gpxTimestamps root)) :=
        List.sorted_insertionSort strLeR (gpxTimestamps root)
      rw [hs] at hsorted
      have hx2 : x ∈ m :: rest := by
        rw [← hs]
        exact ((List.perm_insertionSort strLeR (gpxTimestamps root)).mem_iff).mpr hx
      rcases List.mem_cons.mp hx2 with rfl | hx2
      · exact charsLe_refl _
      · exact List.rel_of_sorted_cons hsorted x hx2
  · intro s h
    cases s with
    | mk l =>
      show String.mk (replaceZchars (l ++ ['Z'])) = String.mk (l ++ _)
      rw [replaceZchars_no_z l h]

/-- C4 witness: a document carrying the timestamps of 2023-11-22 and
2023-11-21 extracts the parse of the smaller one, and the trailing-`Z`
rewrite on it appends the zero offset. -/
theorem c4_witness :
    (extract_gpx_timestamp
        (some (mkTrkDoc gpxNs "gpx" ["2023-11-22T14:04:00Z", "2023-11-21T10:00:00Z"])) =
      fromisoformat (replaceZ "2023-11-21T10:00:00Z") ∧
      "2023-11-21T10:00:00Z" ∈
        gpxTimestamps (mkTrkDoc gpxNs "gpx" ["2023-11-22T14:04:00Z", "2023-11-21T10:00:00Z"]) ∧
      ∀ x ∈ gpxTimestamps (mkTrkDoc gpxNs "gpx" ["2023-11-22T14:04:00Z", "2023-11-21T10:00:00Z"]),
        strLe "2023-11-21T10:00:00Z" x = true) ∧
    replaceZ ("2023-11-21T10:00:00" ++ "Z") = "2023-11-21T10:00:00" ++ "+00:00" :=
  ⟨c4_extractor.2.2.1 (mkTrkDoc gpxNs "gpx" ["2023-11-22T14:04:00Z", "2023-11-21T10:00:00Z"])
      "2023-11-21T10:00:00Z" ["2023-11-22T14:04:00Z"] (by decide),
   c4_extractor.2.2.2 "2023-11-21T10:00:00" (by decide)⟩

/-! ### Claim theorems: namespace handling of the extractor -/

/-- Qualified tags under one namespace agree only on equal local names. -/
theorem qtag_inj_right {u a b : String} (h : qtag u a = qtag u b) : a = b := by
  have hd := congrArg String.data h
  simp only [qtag, List.cons_append] at hd
  injection hd with _ hd
  have hab : a.data = b.data := by injection List.append_cancel_left hd
  cases a
  cases b
  exact congrArg String.mk hab

/-- Prefix collection: `takeWhile` keeps an all-true block and stops at the first failing
character. -/
theorem takeWhile_append_stop {p : Char → Bool} : ∀ (xs : List Char) {c : Char}
    (ys : List Char), (∀ x ∈ xs, p x = true) → p c = false →
    (xs ++ c :: ys).takeWhile p = xs := by
  intro xs
  induction xs with
  | nil =>
    intro c ys _ hc
    simp [List.takeWhile_cons, hc]
  | cons x xt ih =>
    intro c ys hall hc
    have hx : p x = true := hall x (List.mem_cons_self _ _)
    simp [List.takeWhile_cons, hx,
      ih ys (fun z hz => hall z (List.mem_cons_of_mem _ hz)) hc]

/-- Stability: `dropWhile` keeps a list whose every character fails the predicate. -/
theorem dropWhile_eq_self_of_all {p : Char → Bool} (l : List Char)
    (h : ∀ x ∈ l, p x = false) : l.dropWhile p = l := by
  cases l with
  | nil => rfl
  | cons x xt => simp [List.dropWhile_cons, h x (List.mem_cons_self _ _)]

/-- Splitting a qualified tag recovers the namespace URI when the URI itself
carries no braces. -/
theorem tagNsUri_qtag {u : String} (localName : String)
    (h1 : braceOpen ∉ u.data) (h2 : braceClose ∉ u.data) :
    tagNsUri (qtag u localName) = u := by
  have hall : ∀ x ∈ braceOpen :: u.data, (decide (x ≠ braceClose)) = true := by
    intro x hx
    simp only [decide_eq_true_eq]
    rcases List.mem_cons.mp hx with rfl | hx
    · decide
    · intro he
      exact h2 (he ▸ hx)
  have htake : ((braceOpen :: u.data) ++ braceClose :: localName.data).takeWhile
      (fun c => decide (c ≠ braceClose)) = braceOpen :: u.data :=
    takeWhile_append_stop _ _ hall (by decide)
  have hfalse : ∀ x ∈ u.data, (decide (x = braceOpen)) = false := by
    intro x hx
    simp only [decide_eq_false_iff_not]
    intro he
    exact h1 (he ▸ hx)
  have hdrop1 : ((braceOpen :: u.data).dropWhile (fun c => decide (c = braceOpen)))
      = u.data := by
    rw [List.dropWhile_cons, if_pos (by decide)]
    exact dropWhile_eq_self_of_all u.data hfalse
  have hrev : (u.data.reverse.dropWhile (fun c => decide (c = braceOpen)))
      = u.data.reverse :=
    dropWhile_eq_self_of_all _ (fun x hx => hfalse x (List.mem_reverse.mp hx))
  unfold tagNsUri
  have hshape : (qtag u localName).data =
      (braceOpen :: u.data) ++ braceClose :: localName.data := rfl
  rw [hshape, htake, hdrop1, hrev, List.reverse_reverse]

/-- Document traversal of a generated trace document: each track point is
followed by its single time child. -/
theorem descendants_mkTrkDoc (uri rl : String) (times : List String) :
    descendants (mkTrkDoc uri rl times) =
      times.flatMap (fun t => [trkptNode uri t, timeNode uri t]) := by
  show descList (times.map (trkptNode uri)) = _
  induction times with
  | nil => rfl
  | cons t rest ih =>
    simp only [List.map_cons, List.flatMap_cons, descList]
    rw [ih]
    rfl

/-- The track-point search of a generated document finds exactly its time
children, in order. -/
theorem findTimeElems_mkTrkDoc_trkpt (uri rl : String) (times : List String) :
    findTimeElems uri (mkTrkDoc uri rl times) "trkpt" = times.map (timeNode uri) := by
  unfold findTimeElems
  rw [descendants_mkTrkDoc]
  induction times with
  | nil => rfl
  | cons t rest ih =>
    have hne : ¬ ((timeNode uri t).tag = qtag uri "trkpt") := by
      intro h
      exact absurd (qtag_inj_right h) (by decide)
    have htrk : (trkptNode uri t).tag = qtag uri "trkpt" := rfl
    have htime : (timeNode uri t).tag = qtag uri "time" := rfl
    have hchild : (trkptNode uri t).children = [timeNode uri t] := rfl
    have hd1 : (decide ((trkptNode uri t).tag = qtag uri "trkpt")) = true :=
      decide_eq_true htrk
    have hd2 : (decide ((timeNode uri t).tag = qtag uri "trkpt")) = false :=
      decide_eq_false hne
    have hd3 : (decide ((timeNode uri t).tag = qtag uri "time")) = true :=
      decide_eq_true htime
    simp only [List.flatMap_cons, List.filter_append, List.flatMap_append, List.map_cons]
    rw [ih]
    simp [List.filter_cons, hd1, hd2, hd3, hchild]

/-- Searches for any other parent local name find nothing in a generated
trace document. -/
theorem findTimeElems_mkTrkDoc_other (uri rl p : String) (times : List String)
    (hp1 : p ≠ "trkpt") (hp2 : p ≠ "time") :
    findTimeElems uri (mkTrkDoc uri rl times) p = [] := by
  unfold findTimeElems
  rw [descendants_mkTrkDoc]
  induction times with
  | nil => rfl
  | cons t rest ih =>
    have h1 : ¬ ((trkptNode uri t).tag = qtag uri p) := by
      intro h
      exact hp1 (qtag_inj_right h).symm
    have h2 : ¬ ((timeNode uri t).tag = qtag uri p) := by
      intro h
      exact hp2 (qtag_inj_right h).symm
    simp only [List.flatMap_cons, List.filter_append, List.flatMap_append]
    rw [ih]
    simp [h1, h2]

/-- Reading the texts of generated time nodes recovers the timestamps, none
of which is empty. -/
theorem filterMap_timeNodes (uri : String) : ∀ (times : List String),
    (∀ t ∈ times, t ≠ "") →
    (times.map (timeNode uri)).filterMap textNonempty = times := by
  intro times h
  induction times with
  | nil => rfl
  | cons t rest ih =>
    have ht : t ≠ "" := h t (List.mem_cons_self _ _)
    have hrest := ih (fun z hz => h z (List.mem_cons_of_mem _ hz))
    simp [List.filterMap_cons, textNonempty, timeNode, XmlElem.text, ht, hrest]

/-- Collected timestamps of a generated document whose namespace resolves to
its own URI. -/
theorem gpxTimestamps_mkTrkDoc (uri rl : String) (times : List String)
    (hns : nsOf (mkTrkDoc uri rl times) = uri) (hne : ∀ t ∈ times, t ≠ "") :
    gpxTimestamps (mkTrkDoc uri rl times) = times := by
  unfold gpxTimestamps
  rw [hns, findTimeElems_mkTrkDoc_trkpt,
    findTimeElems_mkTrkDoc_other uri rl "wpt" times (by decide) (by decide),
    findTimeElems_mkTrkDoc_other uri rl "metadata" times (by decide) (by decide),
    filterMap_timeNodes uri times hne]
  simp

/-- The namespace of a generated document under the well-known URI resolves
to that URI: the root tag ends in the track-file marker. -/
theorem nsOf_mkTrkDoc_wellKnown (rl : String) (times : List String)
    (h : endsWithB (qtag gpxNs rl) "gpx" = true) :
    nsOf (mkTrkDoc gpxNs rl times) = gpxNs := by
  unfold nsOf
  rw [show (mkTrkDoc gpxNs rl times).tag = qtag gpxNs rl from rfl, h]
  rfl

/-- The namespace of a generated document under a brace-free custom URI
resolves to that URI exactly when the root tag does not end in the
track-file marker. -/
theorem nsOf_mkTrkDoc_custom (uri rl : String) (times : List String)
    (hew : endsWithB (qtag uri rl) "gpx" = false)
    (h1 : braceOpen ∉ uri.data) (h2 : braceClose ∉ uri.data) :
    nsOf (mkTrkDoc uri rl times) = uri := by
  unfold nsOf
  rw [show (mkTrkDoc uri rl times).tag = qtag uri rl from rfl, hew]
  rw [if_neg (by simp)]
  rw [if_pos (show braceClose ∈ (qtag uri rl).data by simp [qtag])]
  exact tagNsUri_qtag rl h1 h2

/-- C6 counterexample: a well-formed document whose root declares a custom
namespace and whose local names end in the track-file marker carries a
track-point time, yet the extractor collects nothing and returns the "none"
result — while the same document under the well-known namespace yields the
timestamp.  The custom-namespace branch requires the root tag NOT to end in
`gpx`, which a namespaced `gpx` root always does. -/
theorem c6_counterexample :
    gpxTimestamps (mkTrkDoc "http://example.com/custom" "gpx"
      ["2023-11-22T14:04:00Z"]) = [] ∧
    extract_gpx_timestamp (some (mkTrkDoc "http://example.com/custom" "gpx"
      ["2023-11-22T14:04:00Z"])) = none ∧
    extract_gpx_timestamp (some (mkTrkDoc gpxNs "gpx" ["2023-11-22T14:04:00Z"])) =
      some ⟨2023, 11, 22, 14, 4, 0, 0, some 0⟩ := by
  decide

/-- C6 (amended): the extractor finds the time elements of a well-formed
trace document when the document declares the fixed well-known namespace
with the usual `gpx` root, and when it declares an arbitrary brace-free
custom namespace whose root qualified name does not end in `gpx`; a custom
namespace on a root ending in `gpx` is not inferred. -/
theorem c6_ns_handling (uri rootLocal : String) (times : List String)
    (hne : ∀ t ∈ times, t ≠ "")
    (hcase : (uri = gpxNs ∧ rootLocal = "gpx") ∨
      (endsWithB (qtag uri rootLocal) "gpx" = false ∧
       braceOpen ∉ uri.data ∧ braceClose ∉ uri.data)) :
    gpxTimestamps (mkTrkDoc uri rootLocal times) = times := by
  apply gpxTimestamps_mkTrkDoc _ _ _ _ hne
  rcases hcase with ⟨rfl, rfl⟩ | ⟨hew, h1, h2⟩
  · exact nsOf_mkTrkDoc_wellKnown "gpx" times (by decide)
  · exact nsOf_mkTrkDoc_custom uri rootLocal times hew h1 h2

/-- C6 witness: the amended claim at a well-known-namespace document and at
a custom-namespace document whose root local name is `trk`. -/
theorem c6_witness :
    gpxTimestamps (mkTrkDoc gpxNs "gpx" ["2023-11-22T14:04:00Z"]) =
      ["2023-11-22T14:04:00Z"] ∧
    gpxTimestamps (mkTrkDoc "http://example.com/custom" "trk"
      ["2023-11-22T14:04:00Z"]) = ["2023-11-22T14:04:00Z"] :=
  ⟨c6_ns_handling gpxNs "gpx" ["2023-11-22T14:04:00Z"] (by decide)
      (Or.inl ⟨rfl, rfl⟩),
   c6_ns_handling "http://example.com/custom" "trk" ["2023-11-22T14:04:00Z"]
      (by decide) (Or.inr ⟨by decide, by decide, by decide⟩)⟩

end Osm

